import Mathlib

/-!
Verification of the stereo/depth utility core (`util2d.cpp`) of rtabmap_ros.

The C++ source is shallowly embedded:
* machine floats become exact rationals (`ℚ`); the operations relevant here
  (multiplication by constants, truncation, comparison, bilinear interpolation)
  are modelled exactly,
* C `int` becomes `ℤ` with C truncated division/modulo (`Int.tdiv`, `Int.tmod`),
* `unsigned short` pixel payloads become `ℕ`,
* loops become folds or fuel-bounded recursion (fuel is always at least the
  number of iterations the C loop can perform),
* images become total functions together with explicit `rows`/`cols` fields;
  the C code only reads in bounds after its own checks, which the embedded
  checks reproduce.
-/

namespace Util2d

/-- C truncation toward zero of a rational, as for `(int)x` / `(unsigned short)x`
casts of a float in C++. -/
def ctrunc (q : ℚ) : ℤ :=
  if 0 ≤ q then ⌊q⌋ else -⌊-q⌋

/-! ## Block dissimilarity scorers (`ssd`, `sad`, util2d.cpp lines 48-112)

A window (`cv::Mat` view) carries one of the three supported encodings:
8-bit gray (`CV_8UC1`), 32-bit float (`CV_32FC1`), packed dual 16-bit
(`CV_16SC2`).  Sample payloads are total functions of the two indices. -/

inductive MatData where
  | gray (px : ℕ → ℕ → ℕ)
  | f32 (px : ℕ → ℕ → ℚ)
  | s2 (px : ℕ → ℕ → ℤ × ℤ)

/-- A `cv::Mat` window: dimensions plus encoded samples. -/
structure Mat where
  rows : ℕ
  cols : ℕ
  data : MatData

/-- Runtime type tags are equal (the `windowLeft.type() == windowRight.type()`
assertion). -/
def MatData.sameType : MatData → MatData → Bool
  | .gray _, .gray _ => true
  | .f32 _, .f32 _ => true
  | .s2 _, .s2 _ => true
  | _, _ => false

/-- Per-pixel signed difference `s`, one case per supported encoding, as in the
bodies of `ssd`/`sad` (for `CV_16SC2` each pixel's comparable intensity is
`0.5*c0 + 0.5*c1`).  Mismatched encodings never reach this point in the C++
code (asserted before the loops); the catch-all returns 0. -/
def pixDiff : MatData → MatData → ℕ → ℕ → ℚ
  | .gray a, .gray b, v, u => (a v u : ℚ) - (b v u : ℚ)
  | .f32 a, .f32 b, v, u => a v u - b v u
  | .s2 a, .s2 b, v, u =>
      ((((a v u).1 : ℚ)) * (1/2) + (((a v u).2 : ℚ)) * (1/2))
        - ((((b v u).1 : ℚ)) * (1/2) + (((b v u).2 : ℚ)) * (1/2))
  | _, _, _, _ => 0

/-- Sum a per-pixel score over the `rows × cols` double loop. -/
def winSum (rows cols : ℕ) (f : ℕ → ℕ → ℚ) : ℚ :=
  ((List.range rows).map fun v => ((List.range cols).map fun u => f v u).sum).sum

/-- SSD: sum of squared differences (util2d.cpp lines 48-80).  The assertions
on encoding and shape become the `Option` guard. -/
def ssd (L R : Mat) : Option ℚ :=
  if L.data.sameType R.data ∧ L.rows = R.rows ∧ L.cols = R.cols then
    some (winSum L.rows L.cols fun v u =>
      pixDiff L.data R.data v u * pixDiff L.data R.data v u)
  else none

/-- SAD: sum of absolute differences (util2d.cpp lines 83-112). -/
def sad (L R : Mat) : Option ℚ :=
  if L.data.sameType R.data ∧ L.rows = R.rows ∧ L.cols = R.cols then
    some (winSum L.rows L.cols fun v u => |pixDiff L.data R.data v u|)
  else none

/-! ## Disparity/depth conversion layer (util2d.cpp lines 905-958)

A 32-bit float depth map is a row list of rational pixel values (meters); a
16-bit map holds `ℕ` millimeters. -/

/-- One pixel of `cvtDepthFromFloat`: scale to millimeters and truncate to
`unsigned short`, dropping to 0 when out of `(0, 65535]` (lines 917-927). -/
def pixToMM (v : ℚ) : ℕ :=
  let depth := v * 1000
  if 0 < depth ∧ depth ≤ 65535 then (ctrunc depth).toNat else 0

/-- Whether one pixel increments `countOverMax` (line 923-926: the scaled value
exceeds `USHRT_MAX`). -/
def pixOverMax (v : ℚ) : Bool :=
  decide (65535 < v * 1000)

/-- `cvtDepthFromFloat` (lines 905-939): per-pixel conversion plus the number
of over-range pixels counted during the double loop. -/
def cvtDepthFromFloat (m : List (List ℚ)) : List (List ℕ) × ℕ :=
  (m.map fun row => row.map pixToMM,
   (m.map fun row => row.countP pixOverMax).sum)

/-- `cvtDepthToFloat` (lines 941-958): divide each 16-bit millimeter pixel by
1000. -/
def cvtDepthToFloat (m : List (List ℕ)) : List (List ℚ) :=
  m.map fun row => row.map fun (n : ℕ) => (n : ℚ) / 1000

/-- Pixel read with the `cv::Mat::at` convention on row-lists (0 outside). -/
def getPix (m : List (List ℚ)) (i j : ℕ) : ℚ :=
  (m.getD i []).getD j 0

/-- Pixel read on a 16-bit row-list map. -/
def getPix16 (m : List (List ℕ)) (i j : ℕ) : ℕ :=
  (m.getD i []).getD j 0

/-- A rational is dyadic (has a power-of-two denominator).  Every value a
32-bit IEEE float can hold is of this form. -/
def IsDyadic (q : ℚ) : Prop :=
  ∃ (n : ℤ) (k : ℕ), q = (n : ℚ) / 2 ^ k

/-! ## Depth sampler `getDepth` (util2d.cpp lines 960-1036) -/

/-- A depth image: 16-bit millimeters or 32-bit float meters. -/
inductive DepthImgData where
  | d16 (px : ℕ → ℕ → ℕ)
  | d32 (px : ℕ → ℕ → ℚ)

structure DepthImg where
  rows : ℕ
  cols : ℕ
  data : DepthImgData

/-- Read one depth sample in meters (`isInMM ? at<ushort>*0.001f : at<float>`). -/
def DepthImg.depthAt (img : DepthImg) (v u : ℕ) : ℚ :=
  match img.data with
  | .d16 px => (px v u : ℚ) * (1/1000)
  | .d32 px => px v u

/-- `getDepth` (lines 960-1036).  The query is rounded with `int(x+0.5f)`;
out-of-bounds queries return 0 before any sample is read.  `uIsFinite` holds
for every rational, so it is not modelled.  Smoothing averages the center
(weight 4) with valid 4-connected (weight 2) and diagonal (weight 1)
neighbors whose depth is within `maxZError` of the center. -/
def getDepth (img : DepthImg) (x y : ℚ) (smoothing : Bool) (maxZError : ℚ) : ℚ :=
  let u : ℤ := ctrunc (x + 1/2)
  let v : ℤ := ctrunc (y + 1/2)
  if ¬(0 ≤ u ∧ u < img.cols ∧ 0 ≤ v ∧ v < img.rows) then 0
  else
    let un := u.toNat
    let vn := v.toNat
    let uStart := un - 1
    let vStart := vn - 1
    let uEnd := min (un + 1) (img.cols - 1)
    let vEnd := min (vn + 1) (img.rows - 1)
    let depth := img.depthAt vn un
    if depth ≠ 0 then
      if smoothing then
        let cells :=
          ((List.range (uEnd + 1 - uStart)).map (· + uStart)).flatMap fun uu =>
            ((List.range (vEnd + 1 - vStart)).map (· + vStart)).map fun vv => (uu, vv)
        let acc := cells.foldl
          (fun (sw : ℚ × ℚ) c =>
            if ¬(c.1 = un ∧ c.2 = vn) then
              let d := img.depthAt c.2 c.1
              if d ≠ 0 ∧ |d - depth| < maxZError then
                if c.1 = un ∨ c.2 = vn then (sw.1 + 2, sw.2 + d * 2)
                else (sw.1 + 1, sw.2 + d)
              else sw
            else sw)
          (0, 0)
        (depth * 4 + acc.2) / (acc.1 + 4)
      else depth
    else 0

/-! ## Depth registration projector `registerDepth` (util2d.cpp lines 1086-1145) -/

/-- Camera intrinsics (fx, fy, cx, cy) as read from the 3×3 `K` matrices. -/
structure CamK where
  fx : ℚ
  fy : ℚ
  cx : ℚ
  cy : ℚ

/-- The rigid transform `transform.toEigen3f()`: a 3×3 rotation block plus
translation, applied as an affine map to 3-D points. -/
structure Pose where
  r11 : ℚ
  r12 : ℚ
  r13 : ℚ
  t1 : ℚ
  r21 : ℚ
  r22 : ℚ
  r23 : ℚ
  t2 : ℚ
  r31 : ℚ
  r32 : ℚ
  r33 : ℚ
  t3 : ℚ

def Pose.apply (T : Pose) (v : ℚ × ℚ × ℚ) : ℚ × ℚ × ℚ :=
  (T.r11 * v.1 + T.r12 * v.2.1 + T.r13 * v.2.2 + T.t1,
   T.r21 * v.1 + T.r22 * v.2.1 + T.r23 * v.2.2 + T.t2,
   T.r31 * v.1 + T.r32 * v.2.1 + T.r33 * v.2.2 + T.t3)

/-- A 16-bit (millimeter) depth map with explicit dimensions. -/
structure DepthImg16 where
  rows : ℕ
  cols : ℕ
  px : ℕ → ℕ → ℕ

/-- Projection of one source pixel (lines 1117-1134): meters from millimeters,
back-projection through the source intrinsics, rigid transform, re-projection
through the destination intrinsics with C `int` truncation, bounds check, and
millimeter re-quantization `z16`.  Returns the destination cell and `z16`, or
`none` when the filter or the bounds check fails.  `1/z` is modelled with
rational division (`1/0 = 0`); the C++ code produces inf/NaN for `z = 0` and
no claim is evaluated on such a path. -/
def projectPixel (depth : DepthImg16) (K Kr : CamK) (T : Pose) (y x : ℕ) :
    Option (ℕ × ℕ × ℕ) :=
  let dz : ℚ := (depth.px y x : ℚ) * (1/1000)
  if 0 ≤ dz then
    let P : ℚ × ℚ × ℚ := (((x : ℚ) - K.cx) * dz / K.fx, ((y : ℚ) - K.cy) * dz / K.fy, dz)
    let Q := T.apply P
    let z := Q.2.2
    let invZ := 1 / z
    let dx : ℤ := ctrunc (Kr.fx * Q.1 * invZ + Kr.cx)
    let dy : ℤ := ctrunc (Kr.fy * Q.2.1 * invZ + Kr.cy)
    if 0 ≤ dx ∧ dx < depth.cols ∧ 0 ≤ dy ∧ dy < depth.rows then
      some (dy.toNat, dx.toNat, (ctrunc (z * 1000)).toNat)
    else none
  else none

/-- Row-major traversal order of the source pixels (`y` outer, `x` inner). -/
def pixelOrder (rows cols : ℕ) : List (ℕ × ℕ) :=
  (List.range rows).flatMap fun y => (List.range cols).map fun x => (y, x)

/-- The write rule at a destination cell (lines 1135-1139): overwrite when the
stored value is 0 (empty) or the new projected depth is strictly smaller. -/
def regUpdate (zReg z16 : ℕ) : ℕ :=
  if zReg = 0 ∨ z16 < zReg then z16 else zReg

/-- `registerDepth` (lines 1086-1145): fold the per-pixel projection over the
source map in row-major order, starting from an all-zero destination. -/
def registerDepth (depth : DepthImg16) (K Kr : CamK) (T : Pose) : ℕ → ℕ → ℕ :=
  (pixelOrder depth.rows depth.cols).foldl
    (fun g yx =>
      match projectPixel depth K Kr T yx.1 yx.2 with
      | some (dy, dx, z16) =>
          fun y2 x2 => if y2 = dy ∧ x2 = dx then regUpdate (g dy dx) z16 else g y2 x2
      | none => g)
    (fun _ _ => 0)

/-- The sequence of projected depths written to destination cell `p` during
one `registerDepth` call, in write order. -/
def writesAt (depth : DepthImg16) (K Kr : CamK) (T : Pose) (p : ℕ × ℕ) : List ℕ :=
  (pixelOrder depth.rows depth.cols).filterMap fun yx =>
    match projectPixel depth K Kr T yx.1 yx.2 with
    | some (dy, dx, z16) => if p = (dy, dx) then some z16 else none
    | none => none

/-! ## Hole-filling post-filter `fillRegisteredDepthHoles` (util2d.cpp lines 1147-1248) -/

/-- Pointwise update of a grid value. -/
def upd (g : ℕ → ℕ → ℕ) (y x v : ℕ) : ℕ → ℕ → ℕ :=
  fun y2 x2 => if y2 = y ∧ x2 = x then v else g y2 x2

/-- The `unsigned short error = 0.01*((a+c)/2)` bound: C integer average then
a double multiply by 0.01 truncated back to an integer, which for the 16-bit
range equals division by 100. -/
def holeErr (a c : ℕ) : ℕ :=
  ((a + c) / 2) / 100

/-- Neighbor consistency `(a>c?a-c<=error:c-a<=error)`. -/
def consOK (a c err : ℕ) : Prop :=
  if c < a then a - c ≤ err else c - a ≤ err

instance (a c err : ℕ) : Decidable (consOK a c err) := by
  unfold consOK; infer_instance

/-- The single-hole fill condition of the vertical branch (lines 1161-1166),
with `a` above, `b` center, `c` below. -/
def singleCond (a b c : ℕ) : Prop :=
  a ≠ 0 ∧ c ≠ 0 ∧
    (((b = 0 ∧ a ≠ 0 ∧ c ≠ 0) ∨ (a + holeErr a c < b ∧ c + holeErr a c < b)) ∧
      consOK a c (holeErr a c))

instance (a b c : ℕ) : Decidable (singleCond a b c) := by
  unfold singleCond; infer_instance

/-- The double-hole fill condition (lines 1177-1183), with `a` before the gap,
`b` and `c` the two gap cells, `d` after the gap. -/
def doubleCond (a b c d : ℕ) : Prop :=
  a ≠ 0 ∧ d ≠ 0 ∧ (b = 0 ∨ c = 0) ∧
    (((b = 0 ∧ a ≠ 0 ∧ d ≠ 0) ∨ (a + holeErr a d < b ∧ d + holeErr a d < b)) ∧
      ((c = 0 ∧ a ≠ 0 ∧ d ≠ 0) ∨ (a + holeErr a d < c ∧ d + holeErr a d < c)) ∧
      consOK a d (holeErr a d))

instance (a b c d : ℕ) : Decidable (doubleCond a b c d) := by
  unfold doubleCond; infer_instance

/-- The two interpolated values of a double-hole fill (lines 1185-1196): the
cell adjacent to `a` gets the first component. -/
def dblVals (a d : ℕ) : ℕ × ℕ :=
  if d < a then (d + (a - d) / 4, d + 3 * ((a - d) / 4))
  else (a + (d - a) / 4, a + 3 * ((d - a) / 4))

/-- One iteration body of the hole-filling loops at column `x`, row `y`:
returns the updated grid and the `y` advance (1 normally; 2 after a vertical
single fill with `!horizontal`; 3 after a vertical double fill with
`!horizontal`, matching the `++y` / `y+=2` skips). -/
def fillBody (vertical horizontal dbl : Bool) (g : ℕ → ℕ → ℕ) (x y : ℕ) :
    (ℕ → ℕ → ℕ) × ℕ :=
  if vertical ∧ singleCond (g (y-1) x) (g y x) (g (y+1) x) then
    (upd g y x ((g (y-1) x + g (y+1) x) / 2), if horizontal then 1 else 2)
  else if vertical ∧ dbl ∧ doubleCond (g (y-1) x) (g y x) (g (y+1) x) (g (y+2) x) then
    let bc := dblVals (g (y-1) x) (g (y+2) x)
    (upd (upd g y x bc.1) (y+1) x bc.2, if horizontal then 1 else 3)
  else if horizontal ∧ singleCond (g y (x-1)) (g y x) (g y (x+1)) then
    (upd g y x ((g y (x-1) + g y (x+1)) / 2), 1)
  else if horizontal ∧ dbl ∧ doubleCond (g y (x-1)) (g y x) (g y (x+1)) (g y (x+2)) then
    let bc := dblVals (g y (x-1)) (g y (x+2))
    (upd (upd g y x bc.1) y (x+1) bc.2, 1)
  else (g, 1)

/-- The inner `y` loop, fuel-bounded (`y` strictly increases each iteration,
so fuel `rows` always suffices for the start value `y = 1`). -/
def fillLoopY (vertical horizontal dbl : Bool) (rows cols margin x : ℕ) :
    ℕ → (ℕ → ℕ → ℕ) → ℕ → (ℕ → ℕ → ℕ)
  | 0, g, _ => g
  | fuel + 1, g, y =>
      if y < rows - margin then
        let r := fillBody vertical horizontal dbl g x y
        fillLoopY vertical horizontal dbl rows cols margin x fuel r.1 (y + r.2)
      else g

/-- The outer `x` loop, fuel-bounded by `cols`. -/
def fillLoopX (vertical horizontal dbl : Bool) (rows cols margin : ℕ) :
    ℕ → (ℕ → ℕ → ℕ) → ℕ → (ℕ → ℕ → ℕ)
  | 0, g, _ => g
  | fuel + 1, g, x =>
      if x < cols - margin then
        fillLoopX vertical horizontal dbl rows cols margin fuel
          (fillLoopY vertical horizontal dbl rows cols margin x rows g 1) (x + 1)
      else g

/-- `fillRegisteredDepthHoles` (lines 1147-1248) on a `rows × cols` map:
`margin` is 2 with double-hole filling enabled, else 1. -/
def fillRegisteredDepthHoles (rows cols : ℕ) (vertical horizontal dbl : Bool)
    (g : ℕ → ℕ → ℕ) : ℕ → ℕ → ℕ :=
  let margin := if dbl then 2 else 1
  fillLoopX vertical horizontal dbl rows cols margin cols g 1

/-- The row-scan order of cell visits the source loops perform when no skips
can trigger (`x` outer ascending, `y` inner ascending). -/
def fillOrder (rows cols margin : ℕ) : List (ℕ × ℕ) :=
  ((List.range (cols - margin - 1)).map (· + 1)).flatMap fun x =>
    ((List.range (rows - margin - 1)).map (· + 1)).map fun y => (x, y)

/-- The same per-cell body applied along an arbitrary visit order. -/
def fillReordered (vertical horizontal dbl : Bool) (g : ℕ → ℕ → ℕ)
    (order : List (ℕ × ℕ)) : ℕ → ℕ → ℕ :=
  order.foldl (fun g2 p => (fillBody vertical horizontal dbl g2 p.1 p.2).1) g

/-! ## Pyramidal block-match engine `calcStereoCorrespondences`
(util2d.cpp lines 114-344)

The pyramids are consumed as inputs (the external
`cv::buildOpticalFlowPyramid` collaborator supplies them); `winSize` is taken
after the oddening of lines 134-141. -/

/-- Floor of a rational (`cvFloor`), computably. -/
def cfloor (q : ℚ) : ℤ :=
  q.num.fdiv q.den

/-- An 8-bit single-channel pyramid level.  Samples are total over `ℤ`
indices; the engine only reads inside `[0,rows) × [0,cols)` after its own
checks. -/
structure GrayImg where
  rows : ℕ
  cols : ℕ
  px : ℤ → ℤ → ℕ

/-- Extract an `h × w` window of a gray level with top-left corner
`(y0, x0)` (the `cv::Mat(img, rowRange, colRange)` views). -/
def grayWin (img : GrayImg) (y0 x0 : ℤ) (h w : ℕ) : Mat :=
  ⟨h, w, .gray fun v u => img.px (y0 + v) (x0 + u)⟩

/-- Clamp an index into `[0, hi)` (border replication of the external
`cv::getRectSubPix` sampler). -/
def clampIdx (n hi : ℤ) : ℤ :=
  if n < 0 then 0 else if hi ≤ n then hi - 1 else n

/-- Bilinear interpolation of a gray image at a rational position. -/
def bilin (img : GrayImg) (X Y : ℚ) : ℚ :=
  let x0 := cfloor X
  let y0 := cfloor Y
  let a := X - (x0 : ℚ)
  let b := Y - (y0 : ℚ)
  let at2 := fun (yy xx : ℤ) =>
    ((img.px (clampIdx yy img.rows) (clampIdx xx img.cols) : ℕ) : ℚ)
  (1-a) * (1-b) * at2 y0 x0 + a * (1-b) * at2 y0 (x0+1) +
    (1-a) * b * at2 (y0+1) x0 + a * b * at2 (y0+1) (x0+1)

/-- The external `cv::getRectSubPix`: an `h × w` 32-bit float patch sampled
bilinearly around the rational center. -/
def getRectSubPix (img : GrayImg) (h w : ℕ) (cx cy : ℚ) : Mat :=
  ⟨h, w, .f32 fun i j =>
    bilin img (cx - ((w : ℚ) - 1) / 2 + (j : ℚ)) (cy - ((h : ℚ) - 1) / 2 + (i : ℚ))⟩

structure StereoParams where
  winW : ℕ
  winH : ℕ
  minDisparity : ℤ
  maxDisparity : ℤ
  ssdApproach : Bool

/-- Score two windows with the chosen scorer (`ssdApproach?ssd(..):sad(..)`).
The windows built by the engine always have equal shape and encoding, so the
`Option` guard never fires; 0 is the (unreachable) default. -/
def StereoParams.score (p : StereoParams) (L R : Mat) : ℚ :=
  ((if p.ssdApproach then ssd L R else sad L R)).getD 0

/-- The per-point search state of lines 162-167; `iters` is the local
`iterations` counter declared at line 169 (the identically named function
parameter is shadowed there and never used). -/
structure StereoState where
  tmpMin : ℤ
  tmpMax : ℤ
  bestScore : ℚ
  secondBest : ℚ
  bestScoreIndex : ℤ
  oi : ℕ
  iters : ℕ

/-- Descending candidate disparities of the scoring loop
`for(d = localMinDisparity; d > localMaxDisparity; --d)`. -/
def candList (lMin lMax : ℤ) : List ℤ :=
  (List.range (lMin - lMax).toNat).map fun k => lMin - k

/-- One scored candidate (lines 208-222): count the iteration, and take the
candidate as new best when its score is positive and below the current best. -/
def scoreStep (score : ℤ → ℚ) (s : StereoState) (d : ℤ) : StereoState :=
  let sc := score d
  if 0 < sc ∧ (s.bestScore < 0 ∨ sc < s.bestScore) then
    { s with secondBest := s.bestScore, bestScoreIndex := (s.oi : ℤ), bestScore := sc,
             oi := s.oi + 1, iters := s.iters + 1 }
  else
    { s with oi := s.oi + 1, iters := s.iters + 1 }

/-- The range update rule the code performs at a level `> 0` after a best
candidate was found (lines 229-240), as a closed-form function of the state:
scale around the best index, add/subtract the C `%`-by-level term, and clamp
one-sidedly to the caller range. -/
def tightenCode (level : ℕ) (oldMin bestIdx minD maxD : ℤ) : ℤ × ℤ :=
  let tMax0 := oldMin + (bestIdx + 1) * 2 ^ level
  let tMax1 := tMax0 + tMax0.tmod level
  let tMax2 := if maxD < tMax1 then maxD else tMax1
  let tMin0 := oldMin + (bestIdx - 1) * 2 ^ level
  let tMin1 := tMin0 - tMin0.tmod level
  let tMin2 := if tMin1 < minD then minD else tMin1
  (tMin2, tMax2)

/-- The window-fit check of lines 183-184 (at level 0 the margin is one pixel
wider on each side for the later sub-pixel sampling). -/
def windowFitOK (imgL : GrayImg) (cx cy halfW halfH edge : ℤ) : Prop :=
  0 ≤ cx - halfW - edge ∧ cx + halfW + edge < imgL.cols ∧
    0 ≤ cy - halfH ∧ cy + halfH < imgL.rows

instance (imgL : GrayImg) (cx cy halfW halfH edge : ℤ) :
    Decidable (windowFitOK imgL cx cy halfW halfH edge) := by
  unfold windowFitOK; infer_instance

/-- The scoring scan of one level inside the window-fit branch (lines
186-222): clamp the scaled disparity range to both image borders, then score
every remaining integer candidate, starting from the reset best-tracking
state. -/
def levelScan (pyrL pyrR : List GrayImg) (p : StereoParams) (pt : ℚ × ℚ)
    (level : ℕ) (s : StereoState) : StereoState :=
  let imgL := pyrL.getD level ⟨0, 0, fun _ _ => 0⟩
  let imgR := pyrR.getD level ⟨0, 0, fun _ _ => 0⟩
  let cx : ℤ := ctrunc (pt.1 / ((2 ^ level : ℕ) : ℚ))
  let cy : ℤ := ctrunc (pt.2 / ((2 ^ level : ℕ) : ℚ))
  let halfW : ℤ := ((p.winW - 1) / 2 : ℕ)
  let halfH : ℤ := ((p.winH - 1) / 2 : ℕ)
  let s0 := { s with oi := 0, bestScore := -1, secondBest := -1, bestScoreIndex := -1 }
  let lMax0 : ℤ := (-s.tmpMax).tdiv (2 ^ level)
  let lMin0 : ℤ := (-s.tmpMin).tdiv (2 ^ level)
  let minCol := cx + lMax0 - halfW - 1
  let lMax1 := if minCol < 0 then lMax0 - minCol else lMax0
  let maxCol := cx + lMin0 + halfW + 1
  let lMin1 := if (imgL.cols : ℤ) ≤ maxCol then lMin0 + (maxCol - imgL.cols - 1) else lMin0
  let lMax2 := if lMin1 < lMax1 then lMin1 else lMax1
  let windowLeft := grayWin imgL (cy - halfH) (cx - halfW) p.winH p.winW
  let score := fun (d : ℤ) =>
    p.score windowLeft (grayWin imgR (cy - halfH) (cx + d - halfW) p.winH p.winW)
  (candList lMin1 lMax2).foldl (scoreStep score) s0

/-- One pyramid level of the disparity search (lines 170-244): project the
point, reset the per-level best tracking, run the scoring scan if the window
fits, and—when a best was found above level 0—tighten the active range for
the next finer level with `tightenCode` (the block of lines 229-240). -/
def levelStep (pyrL pyrR : List GrayImg) (p : StereoParams) (pt : ℚ × ℚ)
    (level : ℕ) (s : StereoState) : StereoState :=
  let imgL := pyrL.getD level ⟨0, 0, fun _ _ => 0⟩
  let cx : ℤ := ctrunc (pt.1 / ((2 ^ level : ℕ) : ℚ))
  let cy : ℤ := ctrunc (pt.2 / ((2 ^ level : ℕ) : ℚ))
  let halfW : ℤ := ((p.winW - 1) / 2 : ℕ)
  let halfH : ℤ := ((p.winH - 1) / 2 : ℕ)
  let edge : ℤ := if level = 0 then 1 else 0
  if windowFitOK imgL cx cy halfW halfH edge then
    let s1 := levelScan pyrL pyrR p pt level s
    if 0 ≤ s1.bestScoreIndex ∧ level ≠ 0 then
      { s1 with
        tmpMin := (tightenCode level s1.tmpMin s1.bestScoreIndex
          p.minDisparity p.maxDisparity).1,
        tmpMax := (tightenCode level s1.tmpMin s1.bestScoreIndex
          p.minDisparity p.maxDisparity).2 }
    else s1
  else { s with oi := 0, bestScore := -1, secondBest := -1, bestScoreIndex := -1 }

/-- The levels `maxLevel, maxLevel-1, …, 1` of the per-point loop. -/
def upperLevels (maxLevel : ℕ) : List ℕ :=
  (List.range maxLevel).map fun k => maxLevel - k

/-- State after the coarse levels (`maxLevel` down to 1). -/
def runUpperLevels (pyrL pyrR : List GrayImg) (p : StereoParams) (pt : ℚ × ℚ)
    (maxLevel : ℕ) : StereoState :=
  (upperLevels maxLevel).foldl
    (fun s level => levelStep pyrL pyrR p pt level s)
    ⟨p.minDisparity, p.maxDisparity, -1, -1, -1, 0, 0⟩

/-- The sub-pixel refinement state of lines 272-276. -/
structure RefState where
  xc : ℚ
  vc : ℚ
  step : ℚ
  cache : List (ℚ × ℚ)
  reject : Bool
  executed : ℕ

/-- `uValue(cache, x, 0.0f)`: look a score up in the cache, defaulting to 0. -/
def cacheGet (c : List (ℚ × ℚ)) (k : ℚ) : ℚ :=
  ((c.find? fun e => decide (e.1 = k)).map Prod.snd).getD 0

/-- One iteration of the secant-style refinement loop (lines 277-322): probe
`xc ± step` (through the score cache, default 0 forcing recomputation), move
to a strictly improving neighbor or halve the step, cache the abandoned
position, and signal a break when the new position leaves `[lowB, highB]`
(the `seed ± 1` rejection band).  `executed` counts loop bodies entered. -/
def refineBody (score : ℚ → ℚ) (lowB highB : ℚ) (s : RefState) : RefState × Bool :=
  let x1 := s.xc - s.step
  let x2 := s.xc + s.step
  let v1c := cacheGet s.cache x1
  let v1 := if v1c = 0 then score x1 else v1c
  let v2c := cacheGet s.cache x2
  let v2 := if v2c = 0 then score x2 else v2c
  let xc2 := if v1 < s.vc ∧ v1 < v2 then x1
    else if v2 < s.vc ∧ v2 < v1 then x2 else s.xc
  let vc2 := if v1 < s.vc ∧ v1 < v2 then v1
    else if v2 < s.vc ∧ v2 < v1 then v2 else s.vc
  let s2 :=
    if s.xc = xc2 then
      { s with xc := xc2, vc := vc2, step := s.step / 2, executed := s.executed + 1 }
    else
      { s with xc := xc2, vc := vc2, cache := (s.xc, s.vc) :: s.cache,
               executed := s.executed + 1 }
  if xc2 < lowB ∨ highB < xc2 then ({ s2 with reject := true }, true)
  else (s2, false)

/-- The refinement loop, fuel = the loop bound `iterations`; it exits early
only through the rejection break. -/
def refineLoop (score : ℚ → ℚ) (lowB highB : ℚ) :
    ℕ → RefState → RefState
  | 0, s => s
  | fuel + 1, s =>
      let r := refineBody score lowB highB s
      if r.2 then r.1 else refineLoop score lowB highB fuel r.1

/-- Observable per-point outcome, including the iteration counters the claims
talk about. -/
structure StereoPointResult where
  rightX : ℚ
  rightY : ℚ
  statusOK : Bool
  found : Bool
  totalIters : ℕ
  level0Cands : ℕ
  refineExecuted : ℕ

/-- The whole per-point pipeline of lines 160-335: the level loop (coarse
levels, then level 0), then—when a level-0 best match exists—the sub-pixel
refinement seeded at the integer match, bounded by the accumulated
`iterations` counter and aborted if the estimate leaves `seed ± 1`. -/
def calcStereoPoint (pyrL pyrR : List GrayImg) (p : StereoParams) (pt : ℚ × ℚ)
    (maxLevel : ℕ) : StereoPointResult :=
  let sUp := runUpperLevels pyrL pyrR p pt maxLevel
  let s := levelStep pyrL pyrR p pt 0 sUp
  if 0 ≤ s.bestScoreIndex then
    let d : ℤ := -(s.tmpMin + s.bestScoreIndex)
    let img0L := pyrL.getD 0 ⟨0, 0, fun _ _ => 0⟩
    let img0R := pyrR.getD 0 ⟨0, 0, fun _ _ => 0⟩
    let windowLeft := getRectSubPix img0L p.winH p.winW pt.1 pt.2
    let score := fun (x : ℚ) =>
      p.score windowLeft (getRectSubPix img0R p.winH p.winW x pt.2)
    let best0 := if pt.1 ≠ ((ctrunc pt.1 : ℤ) : ℚ) then score (pt.1 + (d : ℚ)) else s.bestScore
    let r := refineLoop score (pt.1 + (d : ℚ) - 1) (pt.1 + (d : ℚ) + 1) s.iters
      ⟨pt.1 + (d : ℚ), best0, 1/2, [], false, 0⟩
    ⟨r.xc, pt.2, !r.reject, true, s.iters, s.iters - sUp.iters, r.executed⟩
  else
    ⟨0, 0, false, false, s.iters, s.iters - sUp.iters, 0⟩

/-- Modelled from the spec: the range update exactly as claim C3 states it,
`new max = old min + (bestIndex+1)·2^level`, `new min = old min +
(bestIndex−1)·2^level`, each then clamped to `[minDisparity, maxDisparity]`. -/
def tightenClaimed (level : ℕ) (oldMin bestIdx minD maxD : ℤ) : ℤ × ℤ :=
  (max minD (min maxD (oldMin + (bestIdx - 1) * 2 ^ level)),
   max minD (min maxD (oldMin + (bestIdx + 1) * 2 ^ level)))

/-! ## Constrained gradient tracker `calcOpticalFlowPyrLKStereo`
(util2d.cpp lines 361-726)

The claim under study concerns the per-level iterative refinement (lines
618-681).  The residuals `(b1, b2)` accumulated from the bilinearly sampled
window (lines 640-662) are a function of the current estimate; they enter the
loop only through the step formula of lines 664-665, so the loop is embedded
relative to an arbitrary residual function `B`, and everything proved below
holds for every value `B` can produce. -/

structure LKParams where
  halfWinX : ℚ
  halfWinY : ℚ
  winW : ℤ
  winH : ℤ
  jRows : ℤ
  jCols : ℤ
  A11 : ℚ
  A12 : ℚ
  A22 : ℚ
  Dinv : ℚ
  epsSq : ℚ
  level0 : Bool

/-- The modified step of lines 664-665: the OpenCV vertical component is
replaced by the literal 0. -/
def lkDelta (p : LKParams) (b1 b2 : ℚ) : ℚ × ℚ :=
  ((p.A12 * b2 - p.A22 * b1) * p.Dinv, 0)

structure LKState where
  nextPt : ℚ × ℚ
  outPt : ℚ × ℚ
  prevDelta : ℚ × ℚ
  ok : Bool

/-- The iteration loop of lines 621-681: bounds check with `cvFloor`, one
step `delta` (vertical component zeroed), convergence test against
`criteria.epsilon`, and the oscillation half-step rollback. -/
def lkIters (B : ℚ × ℚ → ℚ × ℚ) (p : LKParams) :
    ℕ → ℕ → LKState → LKState
  | _, 0, s => s
  | j, fuel + 1, s =>
      let ix := cfloor s.nextPt.1
      let iy := cfloor s.nextPt.2
      if ix < -p.winW ∨ p.jCols ≤ ix ∨ iy < -p.winH ∨ p.jRows ≤ iy then
        if p.level0 then { s with ok := false } else s
      else
        let b := B s.nextPt
        let delta := lkDelta p b.1 b.2
        let np := (s.nextPt.1 + delta.1, s.nextPt.2 + delta.2)
        let out := (np.1 + p.halfWinX, np.2 + p.halfWinY)
        if delta.1 * delta.1 + delta.2 * delta.2 ≤ p.epsSq then
          { nextPt := np, outPt := out, prevDelta := s.prevDelta, ok := s.ok }
        else if 0 < j ∧ |delta.1 + s.prevDelta.1| < 1/100 ∧ |delta.2 + s.prevDelta.2| < 1/100 then
          { nextPt := np, outPt := (out.1 - delta.1 / 2, out.2 - delta.2 / 2),
            prevDelta := s.prevDelta, ok := s.ok }
        else
          lkIters B p (j + 1) fuel { nextPt := np, outPt := out, prevDelta := delta, ok := s.ok }

/-- Per-point, per-level refinement: the estimate `est` propagated into the
level is stored to `nextPts` (line 532), shifted by the half window (line
618), then iterated up to `criteria.maxCount` times. -/
def lkRunPoint (B : ℚ × ℚ → ℚ × ℚ) (p : LKParams) (maxCount : ℕ) (est : ℚ × ℚ) : LKState :=
  lkIters B p 0 maxCount
    { nextPt := (est.1 - p.halfWinX, est.2 - p.halfWinY),
      outPt := est, prevDelta := (0, 0), ok := true }

/-! ## Concrete instances used to evaluate the code on explicit inputs -/

/-- A 5×5 constant-intensity-100 gray window. -/
def win5 : Mat := ⟨5, 5, .gray fun _ _ => 100⟩

/-- A second 5×5 gray window (constant 90). -/
def win5b : Mat := ⟨5, 5, .gray fun _ _ => 90⟩

/-- A rigid transform that is a pure translation along the camera axis. -/
def idRotT (tz : ℚ) : Pose := ⟨1, 0, 0, 0, 0, 1, 0, 0, 0, 0, 1, tz⟩

/-- Unit intrinsics (fx = fy = 1, principal point at the origin). -/
def exK : CamK := ⟨1, 1, 0, 0⟩

/-- All-empty 1×1 source depth map. -/
def c7Depth : DepthImg16 := ⟨1, 1, fun _ _ => 0⟩

/-- 1×3 source depth row `[5, 1, 7]` millimeters. -/
def c2Depth : DepthImg16 := ⟨1, 3, fun _ x => if x = 0 then 5 else if x = 1 then 1 else 7⟩

/-- Destination intrinsics with fx = 1/10, collapsing the three source columns
onto destination column 0. -/
def c2Kr : CamK := ⟨1/10, 1, 0, 0⟩

/-- 1×1 source depth map holding 500 millimeters. -/
def c2WDepth : DepthImg16 := ⟨1, 1, fun _ _ => 500⟩

/-- Gap-free 3×3 registered depth map whose center (2000) is an outlier
between vertical neighbors of 1000. -/
def c6Grid : ℕ → ℕ → ℕ := fun y x => if y = 1 ∧ x = 1 then 2000 else 1000

/-- 4×4 constant registered depth map (gap-free, outlier-free). -/
def c6WGrid : ℕ → ℕ → ℕ := fun _ _ => 1000

/-- 3×4 registered depth map where cell (1,1) can only be filled vertically
and cell (1,2) can then be filled horizontally from the freshly filled (1,1):
the outcome at (1,2) depends on the visit order. -/
def c8Grid : ℕ → ℕ → ℕ := fun y x =>
  if y = 0 ∧ x = 1 then 1000 else if y = 1 ∧ x = 3 then 1000
  else if y = 2 ∧ x = 1 then 1000 else 0

/-- Left pyramid (levels 0 and 1) with horizontal intensity ramp `10·u`. -/
def exPyrL : List GrayImg :=
  [⟨6, 13, fun _ u => 10 * u.toNat⟩, ⟨3, 7, fun _ u => 10 * u.toNat⟩]

/-- Right pyramid: the same ramp shifted up by 1 intensity unit, so every
candidate scores positively and the zero-disparity candidate wins. -/
def exPyrR : List GrayImg :=
  [⟨6, 13, fun _ u => 10 * u.toNat + 1⟩, ⟨3, 7, fun _ u => 10 * u.toNat + 1⟩]

/-- 3×3 window, disparity range `[0, 4]`, SSD scoring. -/
def exParams : StereoParams := ⟨3, 3, 0, 4, true⟩

/-- Three-level pyramids of the same ramp pair, for a `maxLevel = 2` search. -/
def ex3PyrL : List GrayImg :=
  [⟨12, 24, fun _ u => 10 * u.toNat⟩, ⟨6, 12, fun _ u => 10 * u.toNat⟩,
   ⟨3, 6, fun _ u => 10 * u.toNat⟩]

def ex3PyrR : List GrayImg :=
  [⟨12, 24, fun _ u => 10 * u.toNat + 1⟩, ⟨6, 12, fun _ u => 10 * u.toNat + 1⟩,
   ⟨3, 6, fun _ u => 10 * u.toNat + 1⟩]

/-- 3×3 window, disparity range `[1, 8]` (odd caller minimum, so the
`%`-by-level adjustment is nonzero at level 2), SSD scoring. -/
def ex3Params : StereoParams := ⟨3, 3, 1, 8, true⟩

/-- The level-2 search state reached from the initial range `[1, 8]`. -/
def ex3S : StereoState :=
  levelStep ex3PyrL ex3PyrR ex3Params (12, 4) 2 ⟨1, 8, -1, -1, -1, 0, 0⟩

/-- Result of the two-level block-match search for the point (8, 2). -/
def exRes : StereoPointResult := calcStereoPoint exPyrL exPyrR exParams (8, 2) 1

/-! ## Theorems -/

theorem sameType_refl (d : MatData) : d.sameType d = true := by
  cases d <;> rfl

theorem pixDiff_self (d : MatData) (v u : ℕ) : pixDiff d d v u = 0 := by
  cases d <;> simp [pixDiff]

theorem winSum_eq_zero {rows cols : ℕ} {f : ℕ → ℕ → ℚ}
    (h : ∀ v u, f v u = 0) : winSum rows cols f = 0 := by
  unfold winSum
  apply List.sum_eq_zero
  intro x hx
  simp only [List.mem_map] at hx
  obtain ⟨v, -, rfl⟩ := hx
  apply List.sum_eq_zero
  intro y hy
  simp only [List.mem_map] at hy
  obtain ⟨u, -, rfl⟩ := hy
  exact h v u

theorem winSum_nonneg {rows cols : ℕ} {f : ℕ → ℕ → ℚ}
    (h : ∀ v u, 0 ≤ f v u) : 0 ≤ winSum rows cols f := by
  unfold winSum
  apply List.sum_nonneg
  intro x hx
  simp only [List.mem_map] at hx
  obtain ⟨v, -, rfl⟩ := hx
  apply List.sum_nonneg
  intro y hy
  simp only [List.mem_map] at hy
  obtain ⟨u, -, rfl⟩ := hy
  exact h v u

/-- C9: for every supported window `W`, `ssd(W, W) = 0` and `sad(W, W) = 0`;
and for every pair of equal-shape, equal-encoding windows, both scorers return
a non-negative score. -/
theorem c9_scorers_zero_self_and_nonneg :
    (∀ W : Mat, ssd W W = some 0 ∧ sad W W = some 0) ∧
    (∀ L R : Mat, L.data.sameType R.data = true → L.rows = R.rows → L.cols = R.cols →
      (∃ s, ssd L R = some s ∧ 0 ≤ s) ∧ (∃ s, sad L R = some s ∧ 0 ≤ s)) := by
  constructor
  · intro W
    constructor
    · unfold ssd
      rw [if_pos ⟨sameType_refl _, rfl, rfl⟩]
      exact congrArg some (winSum_eq_zero fun v u => by rw [pixDiff_self]; ring)
    · unfold sad
      rw [if_pos ⟨sameType_refl _, rfl, rfl⟩]
      exact congrArg some (winSum_eq_zero fun v u => by rw [pixDiff_self]; simp)
  · intro L R ht hr hc
    refine ⟨⟨winSum L.rows L.cols fun v u =>
        pixDiff L.data R.data v u * pixDiff L.data R.data v u, ?_, ?_⟩,
      ⟨winSum L.rows L.cols fun v u => |pixDiff L.data R.data v u|, ?_, ?_⟩⟩
    · unfold ssd
      rw [if_pos ⟨ht, hr, hc⟩]
    · exact winSum_nonneg fun v u => mul_self_nonneg _
    · unfold sad
      rw [if_pos ⟨ht, hr, hc⟩]
    · exact winSum_nonneg fun v u => abs_nonneg _

/-- Witness for C9 on the spec's concrete scenario: 5×5 constant-100 windows
score 0 under both scorers, and a pair of distinct constant windows scores
non-negatively. -/
theorem c9_witness :
    (ssd win5 win5 = some 0 ∧ sad win5 win5 = some 0) ∧
    (∃ s, ssd win5 win5b = some s ∧ 0 ≤ s) ∧ (∃ s, sad win5 win5b = some s ∧ 0 ≤ s) :=
  ⟨c9_scorers_zero_self_and_nonneg.1 win5,
   c9_scorers_zero_self_and_nonneg.2 win5 win5b rfl rfl rfl⟩

theorem getPix_eq {m : List (List ℚ)} {i j : ℕ} {row : List ℚ} {v : ℚ}
    (hi : m.get? i = some row) (hj : row.get? j = some v) : getPix m i j = v := by
  unfold getPix
  simp only [List.getD_eq_get?, hi, Option.getD_some, hj]

/-- No dyadic rational (in particular no 32-bit float value) equals
65535/1000 exactly. -/
theorem dyadic_ne_limit {v : ℚ} (h : IsDyadic v) : v ≠ 65535 / 1000 := by
  intro heq
  obtain ⟨n, k, hv⟩ := h
  rw [hv] at heq
  have hpow : ((2 : ℚ) ^ k) ≠ 0 := by positivity
  have h2 : (n : ℚ) * 1000 = 65535 * 2 ^ k := by
    field_simp at heq
    linarith
  have h3 : (n * 1000 : ℤ) = 65535 * 2 ^ k := by exact_mod_cast h2
  have h4 : (5 : ℤ) * (n * 200) = 5 * (13107 * 2 ^ k) := by linarith
  have h5 : (n * 200 : ℤ) = 13107 * 2 ^ k :=
    mul_left_cancel₀ (by norm_num : (5 : ℤ) ≠ 0) h4
  have h6 : (5 : ℤ) ∣ 13107 * 2 ^ k := by
    rw [← h5]
    exact ⟨n * 40, by ring⟩
  have hp : Prime (5 : ℤ) := by norm_num
  rcases hp.dvd_mul.mp h6 with h7 | h7
  · norm_num at h7
  · have h8 : (5 : ℤ) ∣ 2 := hp.dvd_of_dvd_pow h7
    norm_num at h8

/-- C1: on a 32-bit float depth map with non-negative (float-representable,
hence dyadic) pixels, converting meters→millimeters→meters reproduces every
pixel within the representable range `[0, 65.535)` to within 0.001 m; every
pixel at or above 65.535 m converts back to 0; and the overflow counter equals
the number of such over-range pixels (one increment per pixel). -/
theorem c1_depth_roundtrip (m : List (List ℚ))
    (hm : ∀ row ∈ m, ∀ v ∈ row, 0 ≤ v ∧ IsDyadic v) :
    (∀ i j row v, m.get? i = some row → row.get? j = some v →
      (v < 65535 / 1000 →
        |getPix (cvtDepthToFloat (cvtDepthFromFloat m).1) i j - v| ≤ 1 / 1000) ∧
      (65535 / 1000 ≤ v → getPix (cvtDepthToFloat (cvtDepthFromFloat m).1) i j = 0)) ∧
    (cvtDepthFromFloat m).2 =
      (m.map fun row => row.countP fun v => decide (65535 / 1000 ≤ v)).sum := by
  constructor
  · intro i j row v hi hj
    obtain ⟨hv0, hvd⟩ := hm row (List.get?_mem hi) v (List.get?_mem hj)
    have hi2 : (cvtDepthToFloat (cvtDepthFromFloat m).1).get? i =
        some ((row.map pixToMM).map fun (n : ℕ) => (n : ℚ) / 1000) := by
      unfold cvtDepthFromFloat cvtDepthToFloat
      simp only [List.get?_map, hi]
      rfl
    have hj2 : ((row.map pixToMM).map fun (n : ℕ) => (n : ℚ) / 1000).get? j =
        some ((pixToMM v : ℚ) / 1000) := by
      simp only [List.get?_map, hj]
      rfl
    have hpix := getPix_eq hi2 hj2
    rw [hpix]
    have hpm0 : pixToMM 0 = 0 := by
      unfold pixToMM
      norm_num
    constructor
    · intro hlt
      rcases eq_or_lt_of_le hv0 with hz | hpos
      · rw [← hz, hpm0]
        norm_num
      · have hd1000 : v * 1000 ≤ 65535 := by
          nlinarith
        have hcond : 0 < v * 1000 ∧ v * 1000 ≤ 65535 := ⟨by positivity, hd1000⟩
        have hct : ctrunc (v * 1000) = ⌊v * 1000⌋ := by
          unfold ctrunc
          rw [if_pos (by positivity)]
        have hfl0 : 0 ≤ ⌊v * 1000⌋ := Int.floor_nonneg.mpr (by positivity)
        have hpm : pixToMM v = (⌊v * 1000⌋).toNat := by
          unfold pixToMM
          rw [if_pos hcond, hct]
        rw [hpm]
        have hcast : (((⌊v * 1000⌋).toNat : ℕ) : ℚ) = ((⌊v * 1000⌋ : ℤ) : ℚ) := by
          exact_mod_cast Int.toNat_of_nonneg hfl0
        rw [hcast]
        have hle := Int.floor_le (v * 1000)
        have hlt2 := Int.lt_floor_add_one (v * 1000)
        rw [abs_le]
        constructor <;> [linarith; linarith]
    · intro hge
      have hne : v ≠ 65535 / 1000 := dyadic_ne_limit hvd
      have hgt : 65535 < v * 1000 := by
        rcases lt_or_eq_of_le hge with h | h
        · linarith
        · exact absurd h.symm hne
      have hpm : pixToMM v = 0 := by
        unfold pixToMM
        rw [if_neg]
        rintro ⟨-, hle⟩
        linarith
      rw [hpm]
      norm_num
  · unfold cvtDepthFromFloat
    dsimp only
    apply congrArg List.sum
    apply List.map_congr_left
    intro row hrow
    apply List.countP_congr
    intro v hv
    obtain ⟨hv0, hvd⟩ := hm row hrow v hv
    unfold pixOverMax
    simp only [decide_eq_true_eq]
    constructor
    · intro h
      nlinarith
    · intro h
      rcases lt_or_eq_of_le h with h2 | h2
      · nlinarith
      · exact absurd h2.symm (dyadic_ne_limit hvd)

/-- Witness for C1 on the map `[[1/2, 1/1024, 70]]`: the first two pixels
round-trip within a millimeter, the third (70 m ≥ 65.535 m) converts to 0, and
the counter records exactly one overflow. -/
theorem c1_witness :
    (|getPix (cvtDepthToFloat (cvtDepthFromFloat [[1/2, 1/1024, 70]]).1) 0 0 - 1/2| ≤ 1/1000) ∧
    (getPix (cvtDepthToFloat (cvtDepthFromFloat [[1/2, 1/1024, 70]]).1) 0 2 = 0) ∧
    (cvtDepthFromFloat [[1/2, 1/1024, 70]]).2 = 1 := by
  have hm : ∀ row ∈ [[(1:ℚ)/2, 1/1024, 70]], ∀ v ∈ row, 0 ≤ v ∧ IsDyadic v := by
    intro row hrow v hv
    simp only [List.mem_singleton] at hrow
    subst hrow
    simp only [List.mem_cons, List.not_mem_nil, or_false] at hv
    rcases hv with rfl | rfl | rfl
    · exact ⟨by norm_num, ⟨1, 1, by norm_num⟩⟩
    · exact ⟨by norm_num, ⟨1, 10, by norm_num⟩⟩
    · exact ⟨by norm_num, ⟨70, 0, by norm_num⟩⟩
  have h := c1_depth_roundtrip [[1/2, 1/1024, 70]] hm
  refine ⟨?_, ?_, ?_⟩
  · exact (h.1 0 0 _ _ rfl rfl).1 (by norm_num)
  · exact (h.1 0 2 _ _ rfl rfl).2 (by norm_num)
  · rw [h.2]
    with_unfolding_all rfl

/-- C10: `getDepth` returns 0 for every query whose rounded coordinate
`(int(x+0.5), int(y+0.5))` lies outside the image, and the result is the same
for every depth image of those dimensions (16-bit or 32-bit): no sample is
consulted. -/
theorem c10_getDepth_out_of_bounds (img : DepthImg) (x y : ℚ) (s : Bool) (e : ℚ)
    (h : ¬(0 ≤ ctrunc (x + 1/2) ∧ ctrunc (x + 1/2) < img.cols ∧
           0 ≤ ctrunc (y + 1/2) ∧ ctrunc (y + 1/2) < img.rows)) :
    getDepth img x y s e = 0 ∧
    ∀ img2 : DepthImg, img2.rows = img.rows → img2.cols = img.cols →
      getDepth img2 x y s e = 0 := by
  constructor
  · unfold getDepth
    rw [if_pos h]
  · intro img2 hr hc
    unfold getDepth
    rw [if_pos]
    rw [hr, hc]
    exact h

/-- Witness for C10: the query (100, 0) on a 2×2 millimeter image returns 0,
whatever the image holds. -/
theorem c10_witness :
    getDepth ⟨2, 2, .d16 fun _ _ => 300⟩ 100 0 false 0 = 0 ∧
    getDepth ⟨2, 2, .d16 fun _ _ => 77⟩ 100 0 false 0 = 0 := by
  have hc : ctrunc ((100 : ℚ) + 1/2) = 100 := by with_unfolding_all rfl
  have h := c10_getDepth_out_of_bounds ⟨2, 2, .d16 fun _ _ => 300⟩ 100 0 false 0
    (by rw [hc]; intro hcon; exact absurd hcon.2.1 (by decide))
  exact ⟨h.1, h.2 ⟨2, 2, .d16 fun _ _ => 77⟩ rfl rfl⟩

/-- C7 (code bug): line 1119 tests `dz >= 0.0f`, but `dz` comes from an
`unsigned short` and is never negative, so the emptiness filter is vacuous.
An all-empty 1×1 source map with a forward translation of 0.5 m writes 500 mm
into destination pixel (0,0), although no non-empty source pixel projects
anywhere. -/
theorem c7_empty_pixels_contribute :
    c7Depth.px 0 0 = 0 ∧
    registerDepth c7Depth exK exK (idRotT (1/2)) 0 0 = 500 ∧
    (500 : ℕ) ≠ 0 := by
  refine ⟨rfl, ?_, by decide⟩
  with_unfolding_all rfl

/-- C5: the step applied by each iteration of `calcOpticalFlowPyrLKStereo`
has vertical component exactly 0 (lines 664-665), and consequently, for every
residual function `B` the window sampling can realize and every parameter
set, the refined output coordinate keeps the `y` of the estimate propagated
into the level. -/
theorem c5_lk_horizontal_only :
    (∀ (p : LKParams) (b1 b2 : ℚ), (lkDelta p b1 b2).2 = 0) ∧
    ∀ (B : ℚ × ℚ → ℚ × ℚ) (p : LKParams) (maxCount : ℕ) (est : ℚ × ℚ),
      (lkRunPoint B p maxCount est).outPt.2 = est.2 := by
  have hinv : ∀ (B : ℚ × ℚ → ℚ × ℚ) (p : LKParams) (fuel j : ℕ) (s : LKState) (Y : ℚ),
      s.nextPt.2 = Y - p.halfWinY → s.outPt.2 = Y →
      (lkIters B p j fuel s).outPt.2 = Y := by
    intro B p fuel
    induction fuel with
    | zero => intro j s Y h1 h2; exact h2
    | succ n ih =>
      intro j s Y h1 h2
      rw [lkIters]
      dsimp only
      split
      · split
        · exact h2
        · exact h2
      · split
        · dsimp only
          rw [lkDelta]
          dsimp only
          rw [h1]
          ring
        · split
          · dsimp only
            rw [lkDelta]
            dsimp only
            rw [h1]
            ring
          · apply ih
            · dsimp only
              rw [lkDelta]
              dsimp only
              rw [h1]
              ring
            · dsimp only
              rw [lkDelta]
              dsimp only
              rw [h1]
              ring
  constructor
  · intro p b1 b2
    rfl
  · intro B p maxCount est
    exact hinv B p maxCount 0 _ est.2 rfl rfl

theorem register_foldl_aux (depth : DepthImg16) (K Kr : CamK) (T : Pose)
    (p : ℕ × ℕ) (L : List (ℕ × ℕ)) (g0 : ℕ → ℕ → ℕ) :
    (L.foldl
      (fun g yx =>
        match projectPixel depth K Kr T yx.1 yx.2 with
        | some (dy, dx, z16) =>
            fun y2 x2 => if y2 = dy ∧ x2 = dx then regUpdate (g dy dx) z16 else g y2 x2
        | none => g)
      g0) p.1 p.2 =
    (L.filterMap fun yx =>
      match projectPixel depth K Kr T yx.1 yx.2 with
      | some (dy, dx, z16) => if p = (dy, dx) then some z16 else none
      | none => none).foldl regUpdate (g0 p.1 p.2) := by
  induction L generalizing g0 with
  | nil => rfl
  | cons yx L ih =>
    rw [List.foldl_cons, List.filterMap_cons]
    cases hp : projectPixel depth K Kr T yx.1 yx.2 with
    | none => exact ih g0
    | some w =>
      obtain ⟨dy, dx, z16⟩ := w
      dsimp only
      by_cases hpd : p = (dy, dx)
      · rw [if_pos hpd, List.foldl_cons]
        rw [ih]
        have hcell : (if p.1 = dy ∧ p.2 = dx then regUpdate (g0 dy dx) z16
            else g0 p.1 p.2) = regUpdate (g0 p.1 p.2) z16 := by
          subst hpd
          simp
        rw [hcell]
      · rw [if_neg hpd]
        rw [ih]
        have hcell : (if p.1 = dy ∧ p.2 = dx then regUpdate (g0 dy dx) z16
            else g0 p.1 p.2) = g0 p.1 p.2 := by
          rw [if_neg]
          intro hcon
          exact hpd (Prod.ext hcon.1 hcon.2)
        rw [hcell]

/-- The value `registerDepth` leaves at a destination cell is the fold of the
write rule over the projected depths that targeted that cell, in order. -/
theorem register_eq_writes_fold (depth : DepthImg16) (K Kr : CamK) (T : Pose)
    (p : ℕ × ℕ) :
    registerDepth depth K Kr T p.1 p.2 = (writesAt depth K Kr T p).foldl regUpdate 0 :=
  register_foldl_aux depth K Kr T p _ _

theorem regUpdate_fold_min (l : List ℕ) (z : ℕ) (hz : z ≠ 0)
    (hl : ∀ w ∈ l, w ≠ 0) :
    (l.foldl regUpdate z = z ∨ l.foldl regUpdate z ∈ l) ∧
      l.foldl regUpdate z ≤ z ∧ ∀ w ∈ l, l.foldl regUpdate z ≤ w := by
  induction l generalizing z with
  | nil => exact ⟨Or.inl rfl, le_refl z, by intro w hw; cases hw⟩
  | cons a l ih =>
    have ha : a ≠ 0 := hl a (List.mem_cons_self a l)
    have hstep : regUpdate z a = min a z := by
      unfold regUpdate
      rcases Nat.lt_or_ge a z with h | h
      · rw [if_pos (Or.inr h), min_eq_left (le_of_lt h)]
      · rw [if_neg, min_eq_right h]
        rintro (h0 | hlt)
        · exact hz h0
        · omega
    have hmin : min a z ≠ 0 := by
      rcases min_choice a z with h | h <;> omega
    obtain ⟨h1, h2, h3⟩ := ih (min a z) hmin (fun w hw => hl w (List.mem_cons_of_mem a hw))
    rw [List.foldl_cons, hstep]
    refine ⟨?_, le_trans h2 (min_le_right a z), ?_⟩
    · rcases h1 with h1 | h1
      · rcases min_choice a z with h | h
        · exact Or.inr (by rw [h1, h]; exact List.mem_cons_self a l)
        · exact Or.inl (by rw [h1, h])
      · exact Or.inr (List.mem_cons_of_mem a h1)
    · intro w hw
      rcases List.mem_cons.mp hw with rfl | hw2
      · exact le_trans h2 (min_le_left w z)
      · exact h3 w hw2

/-- Counterexample to C2 as stated: with source depths `[5, 1, 7]` mm all
projected to destination pixel (0,0) as `z16` values `[4, 0, 6]`, the final
value is 6 — neither 0 nor the smallest nonzero projected depth 4 — because
the zero write re-opened the cell. -/
theorem c2_counterexample :
    writesAt c2Depth exK c2Kr (idRotT (-1/2000)) (0, 0) = [4, 0, 6] ∧
    registerDepth c2Depth exK c2Kr (idRotT (-1/2000)) 0 0 = 6 ∧
    (4 : ℕ) ∈ [4, 0, 6] ∧ (∀ w ∈ [4, 0, 6], w ≠ 0 → (4 : ℕ) ≤ w) ∧
    ¬((6 : ℕ) = 0 ∨ (6 : ℕ) = 4) := by
  refine ⟨?_, ?_, by decide, by decide, by decide⟩
  · with_unfolding_all rfl
  · with_unfolding_all rfl

/-- C2 amended: the final value at a destination cell is the fold of the
write rule over the depths projected there; a nonzero stored depth is only
ever replaced by a strictly smaller projected depth; and whenever every depth
projected to the cell is nonzero, every prefix of the write sequence leaves
the cell holding the minimum written so far (so the final value is the
minimum over the contributors).  A projected depth that truncates to 0 mm
re-opens the cell, which is what the original claim misses. -/
theorem c2_nearest_wins (depth : DepthImg16) (K Kr : CamK) (T : Pose) (p : ℕ × ℕ)
    (h : ∀ w ∈ writesAt depth K Kr T p, w ≠ 0) :
    registerDepth depth K Kr T p.1 p.2 = (writesAt depth K Kr T p).foldl regUpdate 0 ∧
    (∀ zReg z16, zReg ≠ 0 → regUpdate zReg z16 ≠ zReg → z16 < zReg) ∧
    ∀ pre suf, writesAt depth K Kr T p = pre ++ suf → pre ≠ [] →
      pre.foldl regUpdate 0 ∈ pre ∧ ∀ w ∈ pre, pre.foldl regUpdate 0 ≤ w := by
  refine ⟨register_eq_writes_fold depth K Kr T p, ?_, ?_⟩
  · intro zReg z16 hzr hne
    unfold regUpdate at hne
    by_cases hlt : z16 < zReg
    · exact hlt
    · rw [if_neg] at hne
      · exact absurd rfl hne
      · rintro (h0 | hl)
        · exact hzr h0
        · exact hlt hl
  · intro pre suf hsplit hne
    have hpre : ∀ w ∈ pre, w ≠ 0 := by
      intro w hw
      exact h w (hsplit ▸ List.mem_append_left suf hw)
    cases pre with
    | nil => exact absurd rfl hne
    | cons a l =>
      have ha : a ≠ 0 := hpre a (List.mem_cons_self a l)
      have hl : ∀ w ∈ l, w ≠ 0 := fun w hw => hpre w (List.mem_cons_of_mem a hw)
      have hfirst : regUpdate 0 a = a := by
        unfold regUpdate
        rw [if_pos (Or.inl rfl)]
      obtain ⟨h1, h2, h3⟩ := regUpdate_fold_min l a ha hl
      rw [List.foldl_cons, hfirst]
      constructor
      · rcases h1 with h1 | h1
        · rw [h1]
          exact List.mem_cons_self a l
        · exact List.mem_cons_of_mem a h1
      · intro w hw
        rcases List.mem_cons.mp hw with rfl | hw2
        · exact h2
        · exact h3 w hw2

/-- Witness for C2 amended: a 1×1 source of 500 mm under the identity
transform writes the single value 500, and the cell holds exactly that fold
(the minimum of its one contributor). -/
theorem c2_witness :
    writesAt c2WDepth exK exK (idRotT 0) (0, 0) = [500] ∧
    registerDepth c2WDepth exK exK (idRotT 0) 0 0 =
      (writesAt c2WDepth exK exK (idRotT 0) (0, 0)).foldl regUpdate 0 ∧
    (writesAt c2WDepth exK exK (idRotT 0) (0, 0)).foldl regUpdate 0 ∈
      writesAt c2WDepth exK exK (idRotT 0) (0, 0) := by
  have hw : writesAt c2WDepth exK exK (idRotT 0) (0, 0) = [500] := by
    with_unfolding_all rfl
  have h := c2_nearest_wins c2WDepth exK exK (idRotT 0) (0, 0)
    (by rw [hw]; decide)
  refine ⟨hw, h.1, ?_⟩
  rw [hw]
  exact (h.2.2 [500] [] (by rw [hw]; rfl) (by decide)).1

theorem fillBody_id (vertical horizontal dbl : Bool) (rows cols margin : ℕ)
    (g : ℕ → ℕ → ℕ) (x y : ℕ) (hmar : 1 ≤ margin)
    (hxb : x < cols - margin) (hyb : y < rows - margin)
    (hfull : ∀ y2 x2, y2 < rows → x2 < cols → g y2 x2 ≠ 0)
    (hvx : vertical = true → ¬ singleCond (g (y-1) x) (g y x) (g (y+1) x))
    (hhx : horizontal = true → ¬ singleCond (g y (x-1)) (g y x) (g y (x+1))) :
    fillBody vertical horizontal dbl g x y = (g, 1) := by
  have hyr : y < rows := by omega
  have hy1r : y + 1 < rows := by omega
  have hxc : x < cols := by omega
  have hx1c : x + 1 < cols := by omega
  have h1 : ¬(vertical = true ∧ singleCond (g (y-1) x) (g y x) (g (y+1) x)) := by
    rintro ⟨hvt, hs⟩
    exact hvx hvt hs
  have h2 : ¬(vertical = true ∧ dbl = true ∧
      doubleCond (g (y-1) x) (g y x) (g (y+1) x) (g (y+2) x)) := by
    rintro ⟨-, -, -, -, hbc, -⟩
    rcases hbc with hb | hc
    · exact hfull y x hyr hxc hb
    · exact hfull (y+1) x hy1r hxc hc
  have h3 : ¬(horizontal = true ∧ singleCond (g y (x-1)) (g y x) (g y (x+1))) := by
    rintro ⟨hht, hs⟩
    exact hhx hht hs
  have h4 : ¬(horizontal = true ∧ dbl = true ∧
      doubleCond (g y (x-1)) (g y x) (g y (x+1)) (g y (x+2))) := by
    rintro ⟨-, -, -, -, hbc, -⟩
    rcases hbc with hb | hc
    · exact hfull y x hyr hxc hb
    · exact hfull y (x+1) hyr hx1c hc
  unfold fillBody
  rw [if_neg h1, if_neg h2, if_neg h3, if_neg h4]

theorem fillLoopY_id (vertical horizontal dbl : Bool) (rows cols margin x : ℕ)
    (g : ℕ → ℕ → ℕ) (hmar : 1 ≤ margin) (hxb : x < cols - margin)
    (hfull : ∀ y2 x2, y2 < rows → x2 < cols → g y2 x2 ≠ 0)
    (hv : vertical = true → ∀ y, 1 ≤ y → y < rows - margin →
      ¬ singleCond (g (y-1) x) (g y x) (g (y+1) x))
    (hh : horizontal = true → ∀ y, 1 ≤ y → y < rows - margin →
      ¬ singleCond (g y (x-1)) (g y x) (g y (x+1))) :
    ∀ fuel y, 1 ≤ y →
      fillLoopY vertical horizontal dbl rows cols margin x fuel g y = g := by
  intro fuel
  induction fuel with
  | zero => intro y hy; rfl
  | succ n ih =>
    intro y hy
    rw [fillLoopY]
    split
    case isTrue hlt =>
      rw [fillBody_id vertical horizontal dbl rows cols margin g x y hmar hxb hlt hfull
        (fun hvt => hv hvt y hy hlt) (fun hht => hh hht y hy hlt)]
      exact ih (y + 1) (by omega)
    case isFalse hge => rfl

theorem fillLoopX_id (vertical horizontal dbl : Bool) (rows cols margin : ℕ)
    (g : ℕ → ℕ → ℕ) (hmar : 1 ≤ margin)
    (hfull : ∀ y2 x2, y2 < rows → x2 < cols → g y2 x2 ≠ 0)
    (hv : vertical = true → ∀ x y, 1 ≤ x → x < cols - margin → 1 ≤ y → y < rows - margin →
      ¬ singleCond (g (y-1) x) (g y x) (g (y+1) x))
    (hh : horizontal = true → ∀ x y, 1 ≤ x → x < cols - margin → 1 ≤ y → y < rows - margin →
      ¬ singleCond (g y (x-1)) (g y x) (g y (x+1))) :
    ∀ fuel x, 1 ≤ x →
      fillLoopX vertical horizontal dbl rows cols margin fuel g x = g := by
  intro fuel
  induction fuel with
  | zero => intro x hx; rfl
  | succ n ih =>
    intro x hx
    rw [fillLoopX]
    split
    case isTrue hlt =>
      rw [fillLoopY_id vertical horizontal dbl rows cols margin x g hmar hlt hfull
        (fun hvt => fun y hy hyb => hv hvt x y hx hlt hy hyb)
        (fun hht => fun y hy hyb => hh hht x y hx hlt hy hyb) rows 1 (le_refl 1)]
      exact ih (x + 1) (by omega)
    case isFalse hge => rfl

/-- C6 amended: `fillRegisteredDepthHoles` is the identity on a gap-free map
provided additionally that no interior pixel triggers the outlier-replacement
rule (strictly exceeding both its in-line neighbors by more than the 1%
consistency bound while those neighbors agree), for any combination of the
three flags.  Gap-freeness alone is not enough: the filter also rewrites
nonzero outlier pixels (see the counterexample). -/
theorem c6_fill_identity (rows cols : ℕ) (vertical horizontal dbl : Bool)
    (g : ℕ → ℕ → ℕ)
    (hfull : ∀ y x, y < rows → x < cols → g y x ≠ 0)
    (hv : vertical = true → ∀ x y, 1 ≤ x → x < cols - (if dbl then 2 else 1) →
      1 ≤ y → y < rows - (if dbl then 2 else 1) →
      ¬ singleCond (g (y-1) x) (g y x) (g (y+1) x))
    (hh : horizontal = true → ∀ x y, 1 ≤ x → x < cols - (if dbl then 2 else 1) →
      1 ≤ y → y < rows - (if dbl then 2 else 1) →
      ¬ singleCond (g y (x-1)) (g y x) (g y (x+1))) :
    fillRegisteredDepthHoles rows cols vertical horizontal dbl g = g := by
  unfold fillRegisteredDepthHoles
  exact fillLoopX_id vertical horizontal dbl rows cols (if dbl then 2 else 1) g
    (by cases dbl <;> decide)
    (fun y2 x2 hy hx => hfull y2 x2 hy hx) hv hh cols 1 (le_refl 1)

/-- Counterexample to C6 as stated: a gap-free 3×3 map whose center 2000 sits
between vertical neighbors of 1000 is changed by the filter (the center is
rewritten to the neighbor average 1000). -/
theorem c6_counterexample :
    (∀ y < 3, ∀ x < 3, c6Grid y x ≠ 0) ∧
    fillRegisteredDepthHoles 3 3 true false false c6Grid 1 1 = 1000 ∧
    c6Grid 1 1 = 2000 ∧ (1000 : ℕ) ≠ 2000 := by
  refine ⟨by decide, ?_, by decide, by decide⟩
  with_unfolding_all rfl

/-- Witness for C6 amended: a constant 4×4 map with all flags on is left
untouched. -/
theorem c6_witness :
    fillRegisteredDepthHoles 4 4 true true true c6WGrid = c6WGrid ∧
    (∀ y < 4, ∀ x < 4, c6WGrid y x ≠ 0) := by
  refine ⟨?_, by decide⟩
  apply c6_fill_identity
  · intro y x hy hx
    show (1000 : ℕ) ≠ 0
    decide
  · intro hvt x y hx hxb hy hyb
    simp only [if_pos] at hxb hyb
    have hx1 : x = 1 := by omega
    have hy1 : y = 1 := by omega
    subst hx1
    subst hy1
    decide
  · intro hht x y hx hxb hy hyb
    simp only [if_pos] at hxb hyb
    have hx1 : x = 1 := by omega
    have hy1 : y = 1 := by omega
    subst hx1
    subst hy1
    decide

/-- Counterexample to C8 as stated: on `c8Grid`, cell (1,1) is filled
vertically and cell (1,2) is then filled horizontally from the freshly
written (1,1).  Visiting the two cells in the source order yields 1000 at
(1,2); visiting them in the reverse order yields 0 there, so the output is
not a function of the input map alone and the outer loop cannot be reordered. -/
theorem c8_counterexample :
    fillRegisteredDepthHoles 3 4 true true false c8Grid 1 2 = 1000 ∧
    fillReordered true true false c8Grid (fillOrder 3 4 1) 1 2 = 1000 ∧
    fillReordered true true false c8Grid ((fillOrder 3 4 1).reverse) 1 2 = 0 ∧
    ((fillOrder 3 4 1).reverse).Perm (fillOrder 3 4 1) ∧
    (1000 : ℕ) ≠ 0 := by
  refine ⟨?_, ?_, ?_, (fillOrder 3 4 1).reverse_perm, by decide⟩
  · with_unfolding_all rfl
  · with_unfolding_all rfl
  · with_unfolding_all rfl

theorem pixToMM_zero : pixToMM 0 = 0 := by
  unfold pixToMM
  norm_num

theorem getPix16_map (f : ℚ → ℕ) (hz : f 0 = 0) (m : List (List ℚ)) (i j : ℕ) :
    getPix16 (m.map fun row => row.map f) i j = f (getPix m i j) := by
  unfold getPix16 getPix
  simp only [List.getD_eq_get?, List.get?_map]
  cases m.get? i with
  | none =>
    dsimp only [Option.map, Option.getD]
    cases j <;> exact hz.symm
  | some row =>
    dsimp only [Option.map, Option.getD]
    rw [List.get?_map]
    cases row.get? j with
    | none => exact hz.symm
    | some v => rfl

theorem getPix_map16 (f : ℕ → ℚ) (hz : f 0 = 0) (n : List (List ℕ)) (i j : ℕ) :
    getPix (n.map fun row => row.map f) i j = f (getPix16 n i j) := by
  unfold getPix16 getPix
  simp only [List.getD_eq_get?, List.get?_map]
  cases n.get? i with
  | none =>
    dsimp only [Option.map, Option.getD]
    cases j <;> exact hz.symm
  | some row =>
    dsimp only [Option.map, Option.getD]
    rw [List.get?_map]
    cases row.get? j with
    | none => exact hz.symm
    | some v => rfl

/-- C8 amended, part 2: the §4.4 pointwise conversions really are per-pixel —
each output pixel of `cvtDepthFromFloat` and `cvtDepthToFloat` is a function
of the corresponding input pixel alone, so those maps may be computed in any
order. -/
theorem c8_pointwise_conversions :
    ∀ (m : List (List ℚ)) (i j : ℕ),
      getPix16 (cvtDepthFromFloat m).1 i j = pixToMM (getPix m i j) ∧
      ∀ (n : List (List ℕ)),
        getPix (cvtDepthToFloat n) i j = (getPix16 n i j : ℚ) / 1000 := by
  intro m i j
  constructor
  · exact getPix16_map pixToMM pixToMM_zero m i j
  · intro n
    exact getPix_map16 (fun (k : ℕ) => (k : ℚ) / 1000) (by norm_num) n i j

theorem scoreStep_preserves (score : ℤ → ℚ) (s : StereoState) (d : ℤ) :
    (scoreStep score s d).tmpMin = s.tmpMin ∧ (scoreStep score s d).tmpMax = s.tmpMax := by
  simp only [scoreStep]
  split <;> exact ⟨rfl, rfl⟩

theorem scoreFold_preserves (score : ℤ → ℚ) (cands : List ℤ) (s : StereoState) :
    (cands.foldl (scoreStep score) s).tmpMin = s.tmpMin ∧
    (cands.foldl (scoreStep score) s).tmpMax = s.tmpMax := by
  induction cands generalizing s with
  | nil => exact ⟨rfl, rfl⟩
  | cons d l ih =>
    rw [List.foldl_cons]
    obtain ⟨h1, h2⟩ := ih (scoreStep score s d)
    obtain ⟨g1, g2⟩ := scoreStep_preserves score s d
    exact ⟨h1.trans g1, h2.trans g2⟩

/-- C3 amended: whenever a best candidate is found at a pyramid level above 0,
the next level's range is `tightenCode` applied to the incoming minimum and
the best index — i.e. `old min ± (bestIndex±1)·2^level`, then shifted by the
C `%`-by-level remainder term of lines 230 and 236, then clamped one-sidedly
(the maximum from above at `maxDisparity`, the minimum from below at
`minDisparity`). -/
theorem c3_range_update (pyrL pyrR : List GrayImg) (p : StereoParams) (pt : ℚ × ℚ)
    (level : ℕ) (s : StereoState) (hl : level ≠ 0)
    (hb : 0 ≤ (levelStep pyrL pyrR p pt level s).bestScoreIndex) :
    ((levelStep pyrL pyrR p pt level s).tmpMin,
     (levelStep pyrL pyrR p pt level s).tmpMax) =
      tightenCode level s.tmpMin (levelStep pyrL pyrR p pt level s).bestScoreIndex
        p.minDisparity p.maxDisparity := by
  have hscan : (levelScan pyrL pyrR p pt level s).tmpMin = s.tmpMin := by
    simp only [levelScan]
    exact (scoreFold_preserves _ _ _).1
  simp only [levelStep] at hb ⊢
  rw [if_neg hl] at hb ⊢
  split at hb
  case isTrue hfit =>
    split at hb
    case isTrue hins =>
      rw [if_pos hfit, if_pos hins]
      dsimp only
      rw [hscan]
    case isFalse hins =>
      exact absurd ⟨hb, hl⟩ hins
  case isFalse hfit =>
    dsimp only at hb
    exact absurd hb (by decide)

theorem refineBody_executed (score : ℚ → ℚ) (lowB highB : ℚ) (s : RefState) :
    (refineBody score lowB highB s).1.executed = s.executed + 1 := by
  simp only [refineBody]
  repeat' split
  all_goals rfl

theorem refineLoop_executed (score : ℚ → ℚ) (lowB highB : ℚ) :
    ∀ (fuel : ℕ) (s : RefState),
      (refineLoop score lowB highB fuel s).executed ≤ s.executed + fuel := by
  intro fuel
  induction fuel with
  | zero => intro s; exact le_refl _
  | succ n ih =>
    intro s
    rw [refineLoop]
    split
    · rw [refineBody_executed]
      omega
    · refine le_trans (ih _) ?_
      rw [refineBody_executed]
      omega

/-- C4 amended: for every point with a level-0 best integer match, the
sub-pixel refinement loop executes at most `totalIters` iterations, where
`totalIters` is the number of integer disparity candidates evaluated across
ALL pyramid levels for that point (the `iterations` counter of line 169 is
accumulated over every level, not just level 0). -/
theorem c4_refine_bound (pyrL pyrR : List GrayImg) (p : StereoParams) (pt : ℚ × ℚ)
    (maxLevel : ℕ)
    (h : (calcStereoPoint pyrL pyrR p pt maxLevel).found = true) :
    (calcStereoPoint pyrL pyrR p pt maxLevel).refineExecuted ≤
      (calcStereoPoint pyrL pyrR p pt maxLevel).totalIters := by
  simp only [calcStereoPoint] at h ⊢
  split at h
  case isTrue hbest =>
    rw [if_pos hbest]
    refine le_trans (refineLoop_executed _ _ _ _ _) ?_
    exact Nat.le_of_eq (Nat.zero_add _)
  case isFalse hbest =>
    exact Bool.noConfusion h

/-- Counterexample to C3 as stated: at level 2 with caller range `[1, 8]`,
the code leaves the active range `(1, 6)` — the `tmpMaxDisparity %= level`
term adds 1 to the new maximum 5 — while the claimed formula (scale then
clamp to the caller range, with no remainder term) yields `(1, 5)`. -/
theorem c3_counterexample :
    ex3S.bestScoreIndex = 0 ∧
    (ex3S.tmpMin, ex3S.tmpMax) = (1, 6) ∧
    tightenCode 2 1 0 1 8 = (1, 6) ∧
    tightenClaimed 2 1 0 1 8 = (1, 5) ∧
    ((1 : ℤ), (6 : ℤ)) ≠ ((1 : ℤ), (5 : ℤ)) := by
  refine ⟨?_, ?_, ?_, ?_, by decide⟩
  · with_unfolding_all rfl
  · with_unfolding_all rfl
  · with_unfolding_all rfl
  · with_unfolding_all rfl

/-- Witness for C3 amended at the level-2 example: the range after the level
step equals `tightenCode` of the incoming state. -/
theorem c3_witness :
    (2 : ℕ) ≠ 0 ∧ 0 ≤ ex3S.bestScoreIndex ∧
    (ex3S.tmpMin, ex3S.tmpMax) = tightenCode 2 1 ex3S.bestScoreIndex 1 8 := by
  have hb : (0 : ℤ) ≤ ex3S.bestScoreIndex := by
    rw [show ex3S.bestScoreIndex = 0 from by with_unfolding_all rfl]
  exact ⟨by decide, hb,
    c3_range_update ex3PyrL ex3PyrR ex3Params (12, 4) 2 ⟨1, 8, -1, -1, -1, 0, 0⟩
      (by decide) hb⟩

/-- Counterexample to C4 as stated: for the point (8, 2) on the example
pyramids, level 0 evaluates 2 integer candidates but the refinement loop
executes 4 iterations (2 candidates were also scored at level 1). -/
theorem c4_counterexample :
    exRes.found = true ∧ exRes.level0Cands = 2 ∧ exRes.refineExecuted = 4 ∧
    ¬((4 : ℕ) ≤ 2) := by
  refine ⟨?_, ?_, ?_, by decide⟩
  · with_unfolding_all rfl
  · with_unfolding_all rfl
  · with_unfolding_all rfl

/-- Witness for C4 amended at the example point: 4 refinement iterations
against 4 candidates in total. -/
theorem c4_witness :
    exRes.found = true ∧ exRes.refineExecuted ≤ exRes.totalIters := by
  have hf : exRes.found = true := by with_unfolding_all rfl
  exact ⟨hf, c4_refine_bound exPyrL exPyrR exParams (8, 2) 1 hf⟩

end Util2d
